import Mathlib

/-!
Shallow embedding of the build-order allocation and completion engine
(`InvenTree/build/models.py`): the `Build` model with its lifecycle
transactions (`cancelBuild`, `autoAllocate`, `unallocateStock`,
`completeBuild`), the quantity-accounting queries, the auto-allocation
heuristic, and the `BuildItem` allocation ledger with its validation.

Modelling conventions:
* The state holds one build order together with its allocation records,
  the stock store and the BOM store.  All quantities, ids, users, dates
  and locations are natural numbers; Django `PositiveIntegerField`s are
  `Nat`.
* Methods decorated `@transaction.atomic` are functions returning
  `Except BuildError State`; a `.error` result means the transaction
  raised and the store rolled back, so the observable state after the
  call is the pre-state (`txState`).
* External collaborators (the stock store's `take_stock` and item
  creation, the part catalog's `required_parts` and `total_stock`) are
  not part of `build/models.py`; they are modelled from the spec where
  noted.
-/

namespace InvenTree

/-- Build status code `PENDING = 10`. -/
def PENDING : Nat := 10

/-- Build status code `ALLOCATED = 20` (present in the vocabulary, never produced). -/
def ALLOCATED : Nat := 20

/-- Build status code `CANCELLED = 30`. -/
def CANCELLED : Nat := 30

/-- Build status code `COMPLETE = 40`. -/
def COMPLETE : Nat := 40

/-- A stock item of the external stock store: a part reference and an
available quantity, plus the bookkeeping fields `completeBuild` writes
when creating the build output. -/
structure StockItem where
  id : Nat
  part : Nat
  location : Nat
  quantity : Nat
  batch : String
  notes : String
deriving DecidableEq

/-- The `Build` model's fields used by the engine: target part, quantity
to build, status code, optional batch code, and the completion audit
fields (`none` until a terminal transition). -/
structure Build where
  part : Nat
  title : String
  quantity : Nat
  status : Nat
  batch : Option String
  creation_date : Nat
  completion_date : Option Nat
  completed_by : Option Nat
deriving DecidableEq

/-- A BOM line of the external part catalog: `quantity` units of
`sub_part` are needed per unit of `part`. -/
structure BomItem where
  part : Nat
  sub_part : Nat
  quantity : Nat
deriving DecidableEq

/-- A `BuildItem` allocation record of the modelled build: it links the
build to a stock item and carries the allocated quantity.  (The `build`
foreign key is implicit: the state holds a single build order and
`buildItems` are exactly its `allocated_stock`.) -/
structure BuildItem where
  stock_item : Nat
  quantity : Nat
deriving DecidableEq

/-- The store state seen by the engine: the one build order, its
allocation records, the stock items and the BOM lines. -/
structure State where
  build : Build
  buildItems : List BuildItem
  stockItems : List StockItem
  bomItems : List BomItem
deriving DecidableEq

/-- Errors raised inside the lifecycle transactions: a ledger
`ValidationError` (with its per-field entries), the store's uniqueness
`ConstraintViolation` on (build, stock item), the stock collaborator's
`InsufficientStock`, and a broken stock foreign key. -/
inductive BuildError where
  | validationError (fields : List String)
  | constraintViolation
  | insufficientStock
  | missingStockItem
deriving DecidableEq

/-- Look a stock item up by its id (foreign-key dereference). -/
def findStock (s : State) (id : Nat) : Option StockItem :=
  s.stockItems.find? (fun si => si.id == id)

/-- Observable store state after a transactional call: its result on
commit, the unchanged pre-state on a rollback (`@transaction.atomic`). -/
def txState (r : Except BuildError State) (s : State) : State :=
  match r with
  | .ok s1 => s1
  | .error _ => s

/-- Modelled from the spec: `Part.required_parts` of the external part
catalog returns the sub-parts appearing in the part's BOM (used by
`BuildItem.clean` for the part-membership check). -/
def partRequiredParts (s : State) (part : Nat) : List Nat :=
  (s.bomItems.filter (fun bi => bi.part == part)).map (fun bi => bi.sub_part)

/-- Modelled from the spec: `StockItem.take_stock` (the stock store's
consume operation) fails with `InsufficientStock` when the requested
quantity exceeds the available quantity, and otherwise decrements the
item's quantity.  The acting user and reason text are audit-only. -/
def StockItem.take_stock (si : StockItem) (q : Nat) (_user : Nat) (_note : String) :
    Except BuildError StockItem :=
  if si.quantity < q then .error .insufficientStock
  else .ok { si with quantity := si.quantity - q }

/-- `Build.cancelBuild`: delete every allocation record (stock is not
touched), set the completion date and the acting user, set the status to
`CANCELLED`, save. -/
def cancelBuild (s : State) (user now : Nat) : State :=
  { s with
    buildItems := [],
    build := { s.build with
      completion_date := some now,
      completed_by := some user,
      status := CANCELLED } }

/-- The BOM lines of the build's target part (`self.part.bom_items.all()`). -/
def bomLines (s : State) : List BomItem :=
  s.bomItems.filter (fun bi => bi.part == s.build.part)

/-- One step of `Build.getAutoAllocations` for one BOM line: if exactly
one stock item of the sub-part exists, it is not already allocated to
this build, and its quantity is positive, propose it with the required
quantity capped at what is available; otherwise propose nothing. -/
def proposeAllocation (s : State) (item : BomItem) : Option BuildItem :=
  let q_required := item.quantity * s.build.quantity
  match s.stockItems.filter (fun si => si.part == item.sub_part) with
  | [stock_item] =>
    if (s.buildItems.filter (fun bi => bi.stock_item == stock_item.id)).length > 0 then
      none
    else if stock_item.quantity > 0 then
      some { stock_item := stock_item.id,
             quantity := if stock_item.quantity < q_required then stock_item.quantity
                         else q_required }
    else
      none
  | _ => none

/-- `Build.getAutoAllocations`: the proposed (stock item, quantity)
pairs, one per unambiguous BOM line, in BOM order. -/
def getAutoAllocations (s : State) : List BuildItem :=
  (bomLines s).filterMap (proposeAllocation s)

/-- `Build.unallocateStock`: delete every allocation record of the build. -/
def unallocateStock (s : State) : State :=
  { s with buildItems := [] }

/-- `BuildItem.clean`: the list of violated fields, collected together
(not short-circuited): `"stock_item"` when the stock item's part is not
among the BOM sub-parts of the build's target part, `"quantity"` when
the allocated quantity exceeds the stock item's available quantity. -/
def BuildItem.clean (s : State) (bi : BuildItem) : List String :=
  let stockItemErrors :=
    match findStock s bi.stock_item with
    | some si => if si.part ∈ partRequiredParts s s.build.part then [] else ["stock_item"]
    | none => []
  let quantityErrors :=
    match findStock s bi.stock_item with
    | some si => if si.quantity < bi.quantity then [] ++ ["quantity"] else []
    | none => []
  stockItemErrors ++ quantityErrors

/-- Modelled from the spec: persisting one `BuildItem` record applies the
ledger validation of `BuildItem.clean` (raising `ValidationError` when
any field is violated) and the store's uniqueness constraint on the
(build, stock item) pair, then inserts the record. -/
def saveBuildItem (s : State) (bi : BuildItem) : Except BuildError State :=
  match BuildItem.clean s bi with
  | [] =>
    if s.buildItems.any (fun x => x.stock_item == bi.stock_item) then
      .error .constraintViolation
    else
      .ok { s with buildItems := s.buildItems ++ [bi] }
  | f :: fs => .error (.validationError (f :: fs))

/-- The persisting loop of `Build.autoAllocate`: save each proposed
record in turn; the first error aborts (and the transaction rolls back). -/
def applyAllocations : State → List BuildItem → Except BuildError State
  | s, [] => .ok s
  | s, bi :: rest =>
    match saveBuildItem s bi with
    | .ok s1 => applyAllocations s1 rest
    | .error e => .error e

/-- `Build.autoAllocate`: compute the proposals and persist each of them
inside one atomic transaction. -/
def autoAllocate (s : State) : Except BuildError State :=
  applyAllocations s (getAutoAllocations s)

/-- The consuming loop of `Build.completeBuild` over the snapshot of the
build's allocation records: for each record, take the allocated quantity
from its stock item (propagating `InsufficientStock`), then delete the
record.  The function is invoked with the snapshot `s.buildItems`, and
deleting the record just processed leaves exactly `rest`. -/
def consumeAllocations (user : Nat) : State → List BuildItem → Except BuildError State
  | s, [] => .ok s
  | s, item :: rest =>
    match findStock s item.stock_item with
    | none => .error .missingStockItem
    | some si =>
      match si.take_stock item.quantity user
          ("Removed " ++ toString item.quantity ++ " items to build "
            ++ toString s.build.quantity ++ " x " ++ toString s.build.part) with
      | .error e => .error e
      | .ok si1 =>
        consumeAllocations user
          { s with
            stockItems := s.stockItems.map (fun x => if x.id == item.stock_item then si1 else x),
            buildItems := rest }
          rest

/-- Modelled from the spec: the persistent store assigns a fresh primary
key to a newly created stock item. -/
def freshStockId (s : State) : Nat :=
  (s.stockItems.map (fun si => si.id)).foldr max 0 + 1

/-- The one stock item `completeBuild` creates
(`StockItem.objects.create(...)`): the build's target part at the given
location, with the build quantity, the build's batch code (empty string
if unset) and a descriptive note; the store assigns the fresh id. -/
def builtStockItem (s s1 : State) (location now : Nat) : StockItem :=
  { id := freshStockId s1,
    part := s.build.part,
    location := location,
    quantity := s.build.quantity,
    batch := s.build.batch.getD "",
    notes := "Built " ++ toString s.build.quantity ++ " on " ++ toString now }

/-- `Build.completeBuild`: consume stock for every allocation record and
delete the records; set the completion date and the acting user; create
one new stock item of the target part at the given location with the
build quantity and the build's batch code; set the status to `COMPLETE`.
Any error aborts the whole transaction. -/
def completeBuild (s : State) (location user now : Nat) : Except BuildError State :=
  match consumeAllocations user s s.buildItems with
  | .error e => .error e
  | .ok s1 =>
    let build1 := { s1.build with
      completion_date := some now,
      completed_by := some user }
    let newItem : StockItem := builtStockItem s s1 location now
    .ok { s1 with
      build := { build1 with status := COMPLETE },
      stockItems := s1.stockItems ++ [newItem] }

/-- `Build.getRequiredQuantity`: the BOM line quantity for the sub-part
under the build's target part times the build quantity, `0` when the
sub-part has no BOM line (`BomItem.DoesNotExist`). -/
def getRequiredQuantity (s : State) (part : Nat) : Nat :=
  match s.bomItems.find? (fun bi => bi.part == s.build.part && bi.sub_part == part) with
  | some item => item.quantity * s.build.quantity
  | none => 0

/-- `Build.getAllocatedQuantity`: the sum of the build's allocation
record quantities whose stock item's part is the given part (`0` when
the aggregate is empty). -/
def getAllocatedQuantity (s : State) (part : Nat) : Nat :=
  ((s.buildItems.filter (fun bi =>
      match findStock s bi.stock_item with
      | some si => si.part == part
      | none => false)).map (fun bi => bi.quantity)).sum

/-- `Build.getUnallocatedQuantity`: `max(required - allocated, 0)` in
(Python) integer arithmetic. -/
def getUnallocatedQuantity (s : State) (part : Nat) : Int :=
  max ((getRequiredQuantity s part : Int) - (getAllocatedQuantity s part : Int)) 0

/-- One entry of `Build.required_parts`: sub-part, per-unit quantity,
total required quantity, currently allocated quantity. -/
structure RequiredPart where
  part : Nat
  per_build : Nat
  quantity : Nat
  allocated : Nat
deriving DecidableEq

/-- The `Build.required_parts` property: one entry per BOM line of the
target part. -/
def required_parts (s : State) : List RequiredPart :=
  (bomLines s).map (fun item =>
    { part := item.sub_part,
      per_build := item.quantity,
      quantity := item.quantity * s.build.quantity,
      allocated := getAllocatedQuantity s item.sub_part })

/-- Modelled from the spec: `Part.total_stock` of the external stock
store is the sub-part's total stock quantity across all its stock items. -/
def total_stock (s : State) (part : Nat) : Nat :=
  ((s.stockItems.filter (fun si => si.part == part)).map (fun si => si.quantity)).sum

/-- The `Build.can_build` property: false as soon as one required part
has less total stock than this build requires, true otherwise. -/
def can_build (s : State) : Bool :=
  (required_parts s).all (fun item =>
    if total_stock s item.part < item.quantity then false else true)

/-- The `Build.is_active` property: the status is among the active ones. -/
def is_active (s : State) : Bool :=
  decide (s.build.status ∈ [PENDING])

/-- The `Build.is_complete` property. -/
def is_complete (s : State) : Bool :=
  s.build.status == COMPLETE

/-- One invocation of a mutating operation of the core, with the
external inputs (acting user, wall-clock date, destination location) it
receives. -/
inductive Op where
  | cancel (user now : Nat)
  | complete (location user now : Nat)
  | autoAlloc
  | unalloc
deriving DecidableEq

/-- Observable state after one operation (transactions roll back on
error, so the observable state of a failed one is the pre-state). -/
def stepOp (op : Op) (s : State) : State :=
  match op with
  | .cancel u n => cancelBuild s u n
  | .complete l u n => txState (completeBuild s l u n) s
  | .autoAlloc => txState (autoAllocate s) s
  | .unalloc => unallocateStock s

/-- Observable state after a sequence of operations. -/
def runOps : List Op → State → State
  | [], s => s
  | op :: rest, s => runOps rest (stepOp op s)

/-- The state-machine guard of §4.1: cancel and complete are invoked
only on a PENDING build (the callers' obligation); the other operations
are unguarded. -/
def opGuard (op : Op) (s : State) : Bool :=
  match op with
  | .cancel _ _ => s.build.status == PENDING
  | .complete _ _ _ => s.build.status == PENDING
  | .autoAlloc => true
  | .unalloc => true

/-- A sequence of operations respects the state-machine guard when every
step's guard holds in the state it is invoked in. -/
def guardedOps : State → List Op → Bool
  | _, [] => true
  | s, op :: rest => opGuard op s && guardedOps (stepOp op s) rest

/-! ### Concrete fixture states (used by the witness theorems) -/

/-- A pending build order of 5 units of part 1, used as a template for
the fixtures below. -/
def buildFix : Build :=
  { part := 1, title := "b", quantity := 5, status := PENDING,
    batch := none, creation_date := 0, completion_date := none, completed_by := none }

/-- Fixture for the quantity-accounting witness (scenario A of the
spec): BOM line 2-per-unit of sub-part 2, one stock item of 7 units
fully allocated. -/
def stateAcct : State :=
  { build := buildFix,
    buildItems := [{ stock_item := 7, quantity := 7 }],
    stockItems := [{ id := 7, part := 2, location := 0, quantity := 7, batch := "", notes := "" }],
    bomItems := [{ part := 1, sub_part := 2, quantity := 2 }] }

/-- Fixture for the auto-allocation witnesses: one unambiguous BOM line
with ample stock, nothing allocated yet. -/
def stateAuto : State :=
  { build := { buildFix with quantity := 2 },
    buildItems := [],
    stockItems := [{ id := 1, part := 2, location := 0, quantity := 10, batch := "", notes := "" }],
    bomItems := [{ part := 1, sub_part := 2, quantity := 3 }] }

/-- The state reached from `stateAuto` by a successful `autoAllocate`
(3 per unit x 2 units = 6 allocated from the single stock item). -/
def stateAutoDone : State :=
  { stateAuto with buildItems := [{ stock_item := 1, quantity := 6 }] }

/-- Fixture for the batch-rejection witness: the only stock item holds 3
units, so a 5-unit record violates the quantity ceiling. -/
def stateBatch : State :=
  { build := buildFix,
    buildItems := [],
    stockItems := [{ id := 9, part := 2, location := 0, quantity := 3, batch := "", notes := "" }],
    bomItems := [{ part := 1, sub_part := 2, quantity := 1 }] }

/-- Fixture for the completion witnesses: one allocation of 4 units
against a stock item holding 6. -/
def stateDone : State :=
  { build := buildFix,
    buildItems := [{ stock_item := 3, quantity := 4 }],
    stockItems := [{ id := 3, part := 2, location := 0, quantity := 6, batch := "", notes := "" }],
    bomItems := [{ part := 1, sub_part := 2, quantity := 1 }] }

/-- The state reached from `stateDone` by a successful completion at
location 0 by user 9 on date 7: 4 units consumed from stock item 3, one
new output item of 5 units of part 1 created. -/
def stateDoneAfter : State :=
  { build := { buildFix with
      completion_date := some 7,
      completed_by := some 9,
      status := COMPLETE },
    buildItems := [],
    stockItems :=
      [{ id := 3, part := 2, location := 0, quantity := 2, batch := "", notes := "" },
       { id := 4, part := 1, location := 0, quantity := 5, batch := "",
         notes := "Built 5 on 7" }],
    bomItems := [{ part := 1, sub_part := 2, quantity := 1 }] }

/-- Fixture for the abort witness: 5 units allocated but only 2 in
stock, so consumption fails. -/
def stateShort : State :=
  { build := buildFix,
    buildItems := [{ stock_item := 4, quantity := 5 }],
    stockItems := [{ id := 4, part := 2, location := 0, quantity := 2, batch := "", notes := "" }],
    bomItems := [{ part := 1, sub_part := 2, quantity := 1 }] }

/-- Fixture for a build with no allocation records at all. -/
def stateEmpty : State :=
  { build := buildFix,
    buildItems := [],
    stockItems := [{ id := 5, part := 2, location := 0, quantity := 1, batch := "", notes := "" }],
    bomItems := [] }

/-- Fixture of an already-cancelled build whose completion fields are
set (completed by user 1 on date 5). -/
def stateTerm : State :=
  { build := { buildFix with
      status := CANCELLED,
      completion_date := some 5,
      completed_by := some 1 },
    buildItems := [],
    stockItems := [],
    bomItems := [] }

/-! ### Claim theorems -/

/-- C7: `cancelBuild` deletes every allocation record of the build, sets
the completion timestamp and completed-by, sets the status to
`CANCELLED`, and leaves every stock item (hence every available
quantity) unchanged. -/
theorem cancelBuild_spec (s : State) (user now : Nat) :
    (cancelBuild s user now).buildItems = []
    ∧ (cancelBuild s user now).build.completion_date = some now
    ∧ (cancelBuild s user now).build.completed_by = some user
    ∧ (cancelBuild s user now).build.status = CANCELLED
    ∧ (cancelBuild s user now).stockItems = s.stockItems :=
  ⟨rfl, rfl, rfl, rfl, rfl⟩

/-- C8: `can_build` holds exactly when every BOM line of the target part
is covered by the sub-part's total stock (summed over all stock items,
with no deduction for existing allocations); in particular a target part
with no BOM lines can always be built. -/
theorem can_build_iff (s : State) :
    (can_build s = true ↔
      ∀ item ∈ s.bomItems, item.part = s.build.part →
        item.quantity * s.build.quantity ≤ total_stock s item.sub_part)
    ∧ ((∀ item ∈ s.bomItems, item.part ≠ s.build.part) → can_build s = true) := by
  have hiff : can_build s = true ↔
      ∀ item ∈ s.bomItems, item.part = s.build.part →
        item.quantity * s.build.quantity ≤ total_stock s item.sub_part := by
    unfold can_build required_parts bomLines
    rw [List.all_eq_true]
    constructor
    · intro h item hmem hpart
      have hx : (if total_stock s item.sub_part < item.quantity * s.build.quantity
          then false else true) = true :=
        h _ (List.mem_map_of_mem _ (List.mem_filter.mpr ⟨hmem, by simp [hpart]⟩))
      by_contra hlt
      rw [if_pos (by omega)] at hx
      exact Bool.false_ne_true hx
    · intro h x hx
      rcases List.mem_map.mp hx with ⟨item, hmem, rfl⟩
      have hmem' := List.mem_filter.mp hmem
      have hge := h item hmem'.1 (by simpa using hmem'.2)
      show (if total_stock s item.sub_part < item.quantity * s.build.quantity
          then false else true) = true
      rw [if_neg (by omega)]
  refine ⟨hiff, fun hnone => hiff.mpr ?_⟩
  intro item hmem hpart
  exact absurd hpart (hnone item hmem)

/-- C10: `completeBuild` has no precondition on allocations: with zero
allocation records it succeeds, consumes nothing (the old stock items
are untouched), creates the single output stock item of the target part
with the build quantity, sets the completion fields, and sets the status
to `COMPLETE`. -/
theorem completeBuild_no_allocations (s : State) (location user now : Nat)
    (h : s.buildItems = []) :
    ∃ s1, completeBuild s location user now = .ok s1
      ∧ s1.stockItems = s.stockItems ++
          [{ id := freshStockId s, part := s.build.part, location := location,
             quantity := s.build.quantity, batch := s.build.batch.getD "",
             notes := "Built " ++ toString s.build.quantity ++ " on " ++ toString now }]
      ∧ s1.buildItems = []
      ∧ s1.build.status = COMPLETE
      ∧ s1.build.completion_date = some now
      ∧ s1.build.completed_by = some user := by
  have hc : consumeAllocations user s s.buildItems = .ok s := by
    rw [h]; rfl
  have hres : completeBuild s location user now = .ok
      { s with
        build := { s.build with
          completion_date := some now,
          completed_by := some user,
          status := COMPLETE },
        stockItems := s.stockItems ++
          [{ id := freshStockId s, part := s.build.part, location := location,
             quantity := s.build.quantity, batch := s.build.batch.getD "",
             notes := "Built " ++ toString s.build.quantity ++ " on " ++ toString now }] } := by
    unfold completeBuild
    rw [hc]
    rfl
  exact ⟨_, hres, rfl, h, rfl, rfl, rfl⟩

/-- A find? hit is unique when no two elements of the list may both
satisfy the predicate. -/
theorem find?_eq_of_unique {α : Type} (p : α → Bool) :
    ∀ (l : List α) (x y : α), l.find? p = some y → x ∈ l → p x = true →
      l.Pairwise (fun a b => p a = true → p b = true → a = b) → y = x := by
  intro l
  induction l with
  | nil => intro x y _ hx; cases hx
  | cons a t ih =>
    intro x y hf hx hpx hpw
    cases hpa : p a with
    | true =>
      rw [List.find?_cons_of_pos _ hpa] at hf
      injection hf with h
      subst h
      rcases List.mem_cons.mp hx with rfl | hxt
      · rfl
      · exact (List.pairwise_cons.mp hpw).1 x hxt hpa hpx
    | false =>
      rw [List.find?_cons_of_neg _ (by simp [hpa])] at hf
      rcases List.mem_cons.mp hx with rfl | hxt
      · rw [hpx] at hpa; cases hpa
      · exact ih x y hf hxt hpx (List.pairwise_cons.mp hpw).2

/-- Summing a projection over a filtered list equals summing the guarded
projection over the whole list. -/
theorem sum_filter_map_eq {α : Type} (p : α → Bool) (f : α → Nat) :
    ∀ l : List α, ((l.filter p).map f).sum = (l.map (fun a => if p a then f a else 0)).sum := by
  intro l
  induction l with
  | nil => rfl
  | cons a t ih => cases h : p a <;> simp [List.filter_cons, h, ih]

/-- C4: `getUnallocatedQuantity` is the clamped difference of required
and allocated quantity, hence never negative; `getRequiredQuantity` is
the BOM line quantity times the build quantity (0 with no BOM line); and
`getAllocatedQuantity` sums the allocation-record quantities whose stock
item's part matches (0 with no records). -/
theorem getUnallocatedQuantity_spec (s : State) (p : Nat)
    (huniq : s.bomItems.Pairwise (fun a b => a.part ≠ b.part ∨ a.sub_part ≠ b.sub_part)) :
    0 ≤ getUnallocatedQuantity s p
    ∧ getUnallocatedQuantity s p =
        max ((getRequiredQuantity s p : Int) - (getAllocatedQuantity s p : Int)) 0
    ∧ (∀ item ∈ s.bomItems, item.part = s.build.part → item.sub_part = p →
        getRequiredQuantity s p = item.quantity * s.build.quantity)
    ∧ ((∀ item ∈ s.bomItems, item.part = s.build.part → item.sub_part ≠ p) →
        getRequiredQuantity s p = 0)
    ∧ getAllocatedQuantity s p =
        (s.buildItems.map (fun bi =>
          if (match findStock s bi.stock_item with
              | some si => si.part == p
              | none => false) then bi.quantity else 0)).sum
    ∧ (s.buildItems = [] → getAllocatedQuantity s p = 0) := by
  refine ⟨le_max_right _ 0, rfl, ?_, ?_, ?_, ?_⟩
  · intro item hmem hpart hsub
    have hpw : s.bomItems.Pairwise (fun a b =>
        (fun bi => bi.part == s.build.part && bi.sub_part == p) a = true →
        (fun bi => bi.part == s.build.part && bi.sub_part == p) b = true → a = b) := by
      refine huniq.imp ?_
      intro a b hab ha hb
      simp only [Bool.and_eq_true, beq_iff_eq] at ha hb
      rcases hab with h1 | h1
      · exact absurd (ha.1.trans hb.1.symm) h1
      · exact absurd (ha.2.trans hb.2.symm) h1
    unfold getRequiredQuantity
    cases hf : s.bomItems.find? (fun bi => bi.part == s.build.part && bi.sub_part == p) with
    | none =>
      have hn := List.find?_eq_none.mp hf item hmem
      simp only [Bool.and_eq_true, beq_iff_eq, not_and] at hn
      exact absurd hsub (hn hpart)
    | some found =>
      have : found = item :=
        find?_eq_of_unique _ s.bomItems item found hf hmem (by simp [hpart, hsub]) hpw
      rw [this]
  · intro hno
    unfold getRequiredQuantity
    rw [List.find?_eq_none.mpr]
    intro x hx
    simp only [Bool.and_eq_true, beq_iff_eq, not_and]
    intro h1 h2
    exact hno x hx h1 h2
  · exact sum_filter_map_eq _ _ s.buildItems
  · intro h
    unfold getAllocatedQuantity
    rw [h]
    rfl

/-- Witness for C4 on the spec's scenario A: 2 per unit, 5 units to
build, 7 of 10 allocated from the single stock item. -/
theorem getUnallocatedQuantity_spec_witness :
    getUnallocatedQuantity stateAcct 2 = 3
    ∧ getRequiredQuantity stateAcct 2 = 10
    ∧ getAllocatedQuantity stateAcct 2 = 7 := by
  have h := getUnallocatedQuantity_spec stateAcct 2 (by decide)
  exact ⟨by decide, h.2.2.1 { part := 1, sub_part := 2, quantity := 2 } (by decide)
    (by decide) (by decide), by decide⟩

/-- Inversion of one auto-allocation step: a proposal arises only from a
BOM line with exactly one stock item of the sub-part, no existing record
for it, positive available quantity, and the capped quantity. -/
theorem proposeAllocation_inv (s : State) (item : BomItem) (pr : BuildItem)
    (h : proposeAllocation s item = some pr) :
    ∃ a, s.stockItems.filter (fun x => x.part == item.sub_part) = [a]
      ∧ (∀ bi ∈ s.buildItems, bi.stock_item ≠ a.id)
      ∧ 0 < a.quantity
      ∧ pr = { stock_item := a.id,
               quantity := if a.quantity < item.quantity * s.build.quantity then a.quantity
                           else item.quantity * s.build.quantity } := by
  unfold proposeAllocation at h
  rcases hfs : s.stockItems.filter (fun x => x.part == item.sub_part) with _ | ⟨a, _ | ⟨b, t⟩⟩
  · rw [hfs] at h
    simp at h
  · rw [hfs] at h
    simp only at h
    by_cases h1 : (s.buildItems.filter (fun x => x.stock_item == a.id)).length > 0
    · rw [if_pos h1] at h
      simp at h
    · rw [if_neg h1] at h
      by_cases h2 : a.quantity > 0
      · rw [if_pos h2] at h
        injection h with h3
        refine ⟨a, hfs, ?_, h2, h3.symm⟩
        intro bi hbi heq
        have hmemf : bi ∈ s.buildItems.filter (fun x => x.stock_item == a.id) :=
          List.mem_filter.mpr ⟨hbi, by simp [heq]⟩
        exact h1 (List.length_pos_of_mem hmemf)
      · rw [if_neg h2] at h
        simp at h
  · rw [hfs] at h
    simp at h

/-- Forward direction of one auto-allocation step: an unambiguous BOM
line with no existing record and positive stock is proposed with the
required quantity capped at the available quantity. -/
theorem proposeAllocation_some (s : State) (item : BomItem) (a : StockItem)
    (hfs : s.stockItems.filter (fun x => x.part == item.sub_part) = [a])
    (hnorec : ∀ bi ∈ s.buildItems, bi.stock_item ≠ a.id)
    (hq : 0 < a.quantity) :
    proposeAllocation s item = some
      { stock_item := a.id,
        quantity := if a.quantity < item.quantity * s.build.quantity then a.quantity
                    else item.quantity * s.build.quantity } := by
  unfold proposeAllocation
  rw [hfs]
  have hnil : s.buildItems.filter (fun x => x.stock_item == a.id) = [] :=
    List.filter_eq_nil_iff.mpr (fun bi hbi => by simpa using hnorec bi hbi)
  show (if (s.buildItems.filter (fun x => x.stock_item == a.id)).length > 0 then none
        else if a.quantity > 0 then
          some
            ({ stock_item := a.id,
               quantity := if a.quantity < item.quantity * s.build.quantity then a.quantity
                           else item.quantity * s.build.quantity } : BuildItem)
        else none)
      = some
        ({ stock_item := a.id,
           quantity := if a.quantity < item.quantity * s.build.quantity then a.quantity
                       else item.quantity * s.build.quantity } : BuildItem)
  rw [hnil]
  simp [hq]

/-- A BOM line whose single candidate stock item already has a record
for this build is skipped by the auto-allocator. -/
theorem proposeAllocation_skip (s : State) (item : BomItem) (a : StockItem)
    (hfs : s.stockItems.filter (fun x => x.part == item.sub_part) = [a])
    (hrec : ∃ bi ∈ s.buildItems, bi.stock_item = a.id) :
    proposeAllocation s item = none := by
  unfold proposeAllocation
  rw [hfs]
  obtain ⟨bi, hbi, heq⟩ := hrec
  have hlen : (s.buildItems.filter (fun x => x.stock_item == a.id)).length > 0 :=
    List.length_pos_of_mem (List.mem_filter.mpr ⟨hbi, by simp [heq]⟩)
  show (if (s.buildItems.filter (fun x => x.stock_item == a.id)).length > 0 then none
        else if a.quantity > 0 then
          some
            ({ stock_item := a.id,
               quantity := if a.quantity < item.quantity * s.build.quantity then a.quantity
                           else item.quantity * s.build.quantity } : BuildItem)
        else none) = none
  rw [if_pos hlen]

/-- A BOM line whose single candidate stock item has no stock is skipped
by the auto-allocator. -/
theorem proposeAllocation_zero (s : State) (item : BomItem) (a : StockItem)
    (hfs : s.stockItems.filter (fun x => x.part == item.sub_part) = [a])
    (hq : ¬ 0 < a.quantity) :
    proposeAllocation s item = none := by
  unfold proposeAllocation
  rw [hfs]
  show (if (s.buildItems.filter (fun x => x.stock_item == a.id)).length > 0 then none
        else if a.quantity > 0 then
          some
            ({ stock_item := a.id,
               quantity := if a.quantity < item.quantity * s.build.quantity then a.quantity
                           else item.quantity * s.build.quantity } : BuildItem)
        else none) = none
  by_cases hlen : (s.buildItems.filter (fun x => x.stock_item == a.id)).length > 0
  · rw [if_pos hlen]
  · rw [if_neg hlen, if_neg hq]

/-- C5: for every BOM line of the target part with exactly one stock
item of the sub-part, positive availability and no existing allocation,
the auto-allocator proposes exactly min(required, available); and no
proposal it returns exceeds its stock item's available quantity. -/
theorem getAutoAllocations_spec (s : State) :
    (∀ item ∈ bomLines s, ∀ a : StockItem,
        s.stockItems.filter (fun x => x.part == item.sub_part) = [a] →
        (∀ bi ∈ s.buildItems, bi.stock_item ≠ a.id) →
        0 < a.quantity →
        { stock_item := a.id,
          quantity := min (item.quantity * s.build.quantity) a.quantity }
          ∈ getAutoAllocations s)
    ∧ (∀ pr ∈ getAutoAllocations s,
        ∃ a ∈ s.stockItems, a.id = pr.stock_item ∧ pr.quantity ≤ a.quantity) := by
  constructor
  · intro item hitem a hfa hnorec hq
    apply List.mem_filterMap.mpr
    refine ⟨item, hitem, ?_⟩
    rw [proposeAllocation_some s item a hfa hnorec hq]
    have hmin : (if a.quantity < item.quantity * s.build.quantity then a.quantity
        else item.quantity * s.build.quantity)
        = min (item.quantity * s.build.quantity) a.quantity := by
      rw [Nat.min_def]
      split_ifs <;> omega
    rw [hmin]
  · intro pr hpr
    rcases List.mem_filterMap.mp hpr with ⟨item, hitem, hprop⟩
    rcases proposeAllocation_inv s item pr hprop with ⟨a, hfa, hnorec, hq, rfl⟩
    refine ⟨a, ?_, rfl, ?_⟩
    · apply List.mem_of_mem_filter (p := fun x => x.part == item.sub_part)
      rw [hfa]
      exact List.mem_singleton_self a
    · show (if a.quantity < item.quantity * s.build.quantity then a.quantity
          else item.quantity * s.build.quantity) ≤ a.quantity
      split_ifs <;> omega

/-- A successful `saveBuildItem` only appends the new record and leaves
the build, the stock store and the BOM untouched. -/
theorem saveBuildItem_ok (s : State) (bi : BuildItem) (s1 : State)
    (h : saveBuildItem s bi = .ok s1) :
    s1.build = s.build ∧ s1.stockItems = s.stockItems ∧ s1.bomItems = s.bomItems
      ∧ s1.buildItems = s.buildItems ++ [bi] := by
  unfold saveBuildItem at h
  rcases hc : BuildItem.clean s bi with _ | ⟨f, fs⟩
  · rw [hc] at h
    split_ifs at h
    injection h with h1
    rw [← h1]
    exact ⟨rfl, rfl, rfl, rfl⟩
  · rw [hc] at h
    cases h

/-- A successful `applyAllocations` run preserves the build, the stock
store and the BOM, keeps every prior record, and persists every record
of the batch. -/
theorem applyAllocations_ok (s : State) (l : List BuildItem) (s1 : State) :
    applyAllocations s l = .ok s1 →
    s1.build = s.build ∧ s1.stockItems = s.stockItems ∧ s1.bomItems = s.bomItems
      ∧ (∀ x ∈ s.buildItems, x ∈ s1.buildItems) ∧ (∀ bi ∈ l, bi ∈ s1.buildItems) := by
  induction l generalizing s with
  | nil =>
    intro h
    injection h with h1
    subst h1
    exact ⟨rfl, rfl, rfl, fun x hx => hx, by simp⟩
  | cons bi rest ih =>
    intro h
    unfold applyAllocations at h
    cases hs : saveBuildItem s bi with
    | error e =>
      rw [hs] at h
      cases h
    | ok smid =>
      rw [hs] at h
      obtain ⟨hb, hst, hbom, hbi⟩ := saveBuildItem_ok s bi smid hs
      obtain ⟨ihb, ihst, ihbom, ihsub, ihmem⟩ := ih smid h
      refine ⟨ihb.trans hb, ihst.trans hst, ihbom.trans hbom, ?_, ?_⟩
      · intro x hx
        exact ihsub x (by rw [hbi]; exact List.mem_append_left _ hx)
      · intro y hy
        rcases List.mem_cons.mp hy with rfl | hyr
        · exact ihsub y (by rw [hbi]; simp)
        · exact ihmem y hyr

/-- C6: auto-allocation is idempotent with respect to apply: after a
successful `autoAllocate`, re-running `getAutoAllocations` proposes
nothing (in particular nothing for a line whose single candidate stock
item is now allocated to this build). -/
theorem autoAllocate_idempotent (s s1 : State) (h : autoAllocate s = .ok s1) :
    getAutoAllocations s1 = [] := by
  unfold autoAllocate at h
  obtain ⟨hb, hst, hbom, hsub, hmem⟩ := applyAllocations_ok s (getAutoAllocations s) s1 h
  apply List.filterMap_eq_nil_iff.mpr
  intro item hitem
  have hitem' : item ∈ bomLines s := by
    unfold bomLines at hitem ⊢
    rw [hbom, hb] at hitem
    exact hitem
  rcases hfs : s.stockItems.filter (fun x => x.part == item.sub_part) with _ | ⟨a, _ | ⟨b, t⟩⟩
  · unfold proposeAllocation
    rw [hst, hfs]
  · by_cases hrec : ∃ bi ∈ s1.buildItems, bi.stock_item = a.id
    · exact proposeAllocation_skip s1 item a (by rw [hst]; exact hfs) hrec
    · have hnorec1 : ∀ bi ∈ s1.buildItems, bi.stock_item ≠ a.id := by
        intro bi hbi heq
        exact hrec ⟨bi, hbi, heq⟩
      have hnorec : ∀ bi ∈ s.buildItems, bi.stock_item ≠ a.id :=
        fun bi hbi => hnorec1 bi (hsub bi hbi)
      by_cases hq : 0 < a.quantity
      · exfalso
        have hsome := proposeAllocation_some s item a hfs hnorec hq
        have hmemprop :
            ({ stock_item := a.id,
               quantity := if a.quantity < item.quantity * s.build.quantity then a.quantity
                           else item.quantity * s.build.quantity } : BuildItem)
              ∈ getAutoAllocations s :=
          List.mem_filterMap.mpr ⟨item, hitem', hsome⟩
        exact hnorec1 _ (hmem _ hmemprop) rfl
      · exact proposeAllocation_zero s1 item a (by rw [hst]; exact hfs) hq
  · unfold proposeAllocation
    rw [hst, hfs]

/-- Witness for C6: applying auto-allocation on the concrete fixture and
re-running the proposal query yields nothing. -/
theorem autoAllocate_idempotent_witness : getAutoAllocations stateAutoDone = [] :=
  autoAllocate_idempotent stateAuto stateAutoDone (by rfl)

/-- The ledger validation reads only the stock store, the BOM and the
build, so it is unchanged by record insertion. -/
theorem clean_congr (s s1 : State) (bi : BuildItem)
    (hst : s1.stockItems = s.stockItems) (hbom : s1.bomItems = s.bomItems)
    (hb : s1.build = s.build) :
    BuildItem.clean s1 bi = BuildItem.clean s bi := by
  unfold BuildItem.clean findStock partRequiredParts
  rw [hst, hbom, hb]

/-- The persisting loop errors as soon as the batch holds a record that
violates the ledger validation. -/
theorem applyAllocations_error_of_invalid : ∀ (batch : List BuildItem) (s : State),
    (∃ bi ∈ batch, BuildItem.clean s bi ≠ []) →
    ∃ e, applyAllocations s batch = .error e := by
  intro batch
  induction batch with
  | nil =>
    intro s hbad
    rcases hbad with ⟨bi, hmem, _⟩
    cases hmem
  | cons b rest ih =>
    intro s hbad
    unfold applyAllocations
    cases hs : saveBuildItem s b with
    | error e => exact ⟨e, rfl⟩
    | ok smid =>
      rcases hbad with ⟨bi, hmem, hbadbi⟩
      rcases List.mem_cons.mp hmem with rfl | hmemr
      · exfalso
        apply hbadbi
        unfold saveBuildItem at hs
        rcases hc : BuildItem.clean s bi with _ | ⟨f, fs⟩
        · rfl
        · rw [hc] at hs
          cases hs
      · obtain ⟨hb, hst, hbom, _⟩ := saveBuildItem_ok s b smid hs
        have hbad1 : BuildItem.clean smid bi ≠ [] := by
          rw [clean_congr s smid bi hst hbom hb]
          exact hbadbi
        exact ih smid ⟨bi, hmemr, hbad1⟩

/-- C3: the apply step runs as one atomic transaction and rejects the
whole batch when any individual record violates the part-membership or
quantity-ceiling invariant: it raises and the observable state is the
unchanged pre-state, so no record of the batch is persisted. -/
theorem applyAllocations_rejects_invalid (s : State) (batch : List BuildItem)
    (hbad : ∃ bi ∈ batch, BuildItem.clean s bi ≠ []) :
    (∃ e, applyAllocations s batch = .error e)
    ∧ txState (applyAllocations s batch) s = s := by
  rcases applyAllocations_error_of_invalid batch s hbad with ⟨e, he⟩
  refine ⟨⟨e, he⟩, ?_⟩
  rw [he]
  rfl

/-- Witness for C3: a 5-unit record against a 3-unit stock item is
rejected and the state is untouched. -/
theorem applyAllocations_rejects_invalid_witness :
    (∃ e, applyAllocations stateBatch [{ stock_item := 9, quantity := 5 }] = .error e)
    ∧ txState (applyAllocations stateBatch [{ stock_item := 9, quantity := 5 }]) stateBatch
        = stateBatch :=
  applyAllocations_rejects_invalid stateBatch [{ stock_item := 9, quantity := 5 }]
    ⟨{ stock_item := 9, quantity := 5 }, by decide, by decide⟩

/-- Looking a stock item up after the completion loop's single-item
update: the updated item under its own id, anything else unchanged. -/
theorem find?_id_update (l : List StockItem) (tid : Nat) (si0 si1 : StockItem)
    (hfind : l.find? (fun x => x.id == tid) = some si0) (hid : si1.id = si0.id)
    (idq : Nat) :
    (l.map (fun x => if x.id == tid then si1 else x)).find? (fun x => x.id == idq)
      = if idq = tid then some si1 else l.find? (fun x => x.id == idq) := by
  have hsi0 : si0.id = tid := by
    have := List.find?_some hfind
    simpa using this
  have hids : ∀ x : StockItem, ((fun x => if x.id == tid then si1 else x) x).id = x.id := by
    intro x
    show (if x.id == tid then si1 else x).id = x.id
    by_cases hx : (x.id == tid) = true
    · rw [if_pos hx, hid, hsi0]
      exact (beq_iff_eq.mp hx).symm
    · rw [if_neg hx]
  rw [List.find?_map]
  have hpred : ((fun x : StockItem => x.id == idq) ∘ (fun x => if x.id == tid then si1 else x))
      = (fun x : StockItem => x.id == idq) := by
    funext x
    simp only [Function.comp_apply]
    rw [hids x]
  rw [hpred]
  by_cases hq : idq = tid
  · subst hq
    rw [hfind, if_pos rfl]
    show some (if si0.id == idq then si1 else si0) = some si1
    rw [if_pos (by simp [hsi0])]
  · rw [if_neg hq]
    cases hfq : l.find? (fun x => x.id == idq) with
    | none => simp
    | some y =>
      have hy : y.id = idq := by
        have := List.find?_some hfq
        simpa using this
      show some (if y.id == tid then si1 else y) = some y
      rw [if_neg (by simp [hy, hq])]

/-- The completion loop errors as soon as some record of the snapshot
has insufficient stock (its stock item's quantity can only shrink while
earlier records are consumed, so a shortfall never heals). -/
theorem consumeAllocations_error_of_fail : ∀ (items : List BuildItem) (s : State) (user : Nat),
    (∃ bi ∈ items, ∀ si, findStock s bi.stock_item = some si → si.quantity < bi.quantity) →
    ∃ e, consumeAllocations user s items = .error e := by
  intro items
  induction items with
  | nil =>
    intro s user hbad
    rcases hbad with ⟨bi, hmem, _⟩
    cases hmem
  | cons b rest ih =>
    intro s user hbad
    cases hf : findStock s b.stock_item with
    | none =>
      unfold consumeAllocations
      simp only [hf]
      exact ⟨.missingStockItem, rfl⟩
    | some si =>
      unfold consumeAllocations
      simp only [hf]
      by_cases hlt : si.quantity < b.quantity
      · have herr : ∀ note, si.take_stock b.quantity user note = .error .insufficientStock := by
          intro note
          unfold StockItem.take_stock
          rw [if_pos hlt]
        rw [herr]
        exact ⟨.insufficientStock, rfl⟩
      · rcases hbad with ⟨bi, hmem, hfail⟩
        rcases List.mem_cons.mp hmem with rfl | hmemr
        · exact absurd (hfail si hf) hlt
        · have hsucc : ∀ note, si.take_stock b.quantity user note
              = .ok { si with quantity := si.quantity - b.quantity } := by
            intro note
            unfold StockItem.take_stock
            rw [if_neg hlt]
          rw [hsucc]
          have hmid : ∃ e, consumeAllocations user
              { s with
                stockItems := s.stockItems.map (fun x =>
                  if x.id == b.stock_item then { si with quantity := si.quantity - b.quantity }
                  else x),
                buildItems := rest } rest = .error e := by
            apply ih
            refine ⟨bi, hmemr, ?_⟩
            intro si' hfind'
            have hfind2 : (s.stockItems.map (fun x =>
                if x.id == b.stock_item then { si with quantity := si.quantity - b.quantity }
                else x)).find? (fun x => x.id == bi.stock_item) = some si' := hfind'
            rw [find?_id_update s.stockItems b.stock_item si
              { si with quantity := si.quantity - b.quantity } hf rfl bi.stock_item] at hfind2
            by_cases heq : bi.stock_item = b.stock_item
            · rw [if_pos heq] at hfind2
              injection hfind2 with h1
              have hlt2 := hfail si (by rw [heq]; exact hf)
              rw [← h1]
              show si.quantity - b.quantity < bi.quantity
              omega
            · rw [if_neg heq] at hfind2
              exact hfail si' hfind2
          exact hmid

/-- C1: if the stock-consuming step of `completeBuild` fails for any one
allocation record, the whole transaction raises and has no observable
effect: the state (records, stock items, build fields, status) is the
unchanged pre-state. -/
theorem completeBuild_aborts (s : State) (location user now : Nat)
    (hfail : ∃ bi ∈ s.buildItems, ∃ si, findStock s bi.stock_item = some si
      ∧ si.quantity < bi.quantity) :
    (∃ e, completeBuild s location user now = .error e)
    ∧ txState (completeBuild s location user now) s = s := by
  have hex : ∃ bi ∈ s.buildItems, ∀ si, findStock s bi.stock_item = some si →
      si.quantity < bi.quantity := by
    rcases hfail with ⟨bi, hmem, si, hf, hlt⟩
    refine ⟨bi, hmem, ?_⟩
    intro si' hf'
    rw [hf] at hf'
    injection hf' with h1
    rw [← h1]
    exact hlt
  rcases consumeAllocations_error_of_fail s.buildItems s user hex with ⟨e, he⟩
  have habort : completeBuild s location user now = .error e := by
    unfold completeBuild
    rw [he]
  refine ⟨⟨e, habort⟩, ?_⟩
  rw [habort]
  rfl

/-- Witness for C1: completing with 5 allocated but only 2 in stock
raises and leaves the state untouched. -/
theorem completeBuild_aborts_witness :
    (∃ e, completeBuild stateShort 0 1 2 = .error e)
    ∧ txState (completeBuild stateShort 0 1 2) stateShort = stateShort :=
  completeBuild_aborts stateShort 0 1 2
    ⟨{ stock_item := 4, quantity := 5 }, by decide,
      { id := 4, part := 2, location := 0, quantity := 2, batch := "", notes := "" },
      by decide, by decide⟩

/-- Witness for C10 on a concrete build with no allocations. -/
theorem completeBuild_no_allocations_witness :
    ∃ s1, completeBuild stateEmpty 8 1 2 = .ok s1
      ∧ s1.stockItems = stateEmpty.stockItems ++
          [{ id := freshStockId stateEmpty, part := stateEmpty.build.part, location := 8,
             quantity := stateEmpty.build.quantity, batch := stateEmpty.build.batch.getD "",
             notes := "Built " ++ toString stateEmpty.build.quantity ++ " on " ++ toString 2 }]
      ∧ s1.buildItems = []
      ∧ s1.build.status = COMPLETE
      ∧ s1.build.completion_date = some 2
      ∧ s1.build.completed_by = some 1 :=
  completeBuild_no_allocations stateEmpty 8 1 2 rfl

/-- The completion loop's single-item update preserves every stock
item's id. -/
theorem map_update_ids (l : List StockItem) (tid : Nat) (si1 : StockItem) (hid : si1.id = tid) :
    (l.map (fun x => if x.id == tid then si1 else x)).map (fun x => x.id)
      = l.map (fun x => x.id) := by
  rw [List.map_map]
  apply List.map_congr_left
  intro a _
  show (if a.id == tid then si1 else a).id = a.id
  by_cases hx : (a.id == tid) = true
  · rw [if_pos hx, hid]
    exact (beq_iff_eq.mp hx).symm
  · rw [if_neg hx]

/-- Updating the one stock item with the given id (ids are unique)
changes the total stock sum by exactly the quantity difference. -/
theorem sum_map_update (tid : Nat) (si0 si1 : StockItem) :
    ∀ l : List StockItem, (l.map (fun x => x.id)).Nodup →
      l.find? (fun x => x.id == tid) = some si0 →
      ((l.map (fun x => if x.id == tid then si1 else x)).map (fun x => x.quantity)).sum
          + si0.quantity
        = (l.map (fun x => x.quantity)).sum + si1.quantity := by
  intro l
  induction l with
  | nil =>
    intro _ hfind
    cases hfind
  | cons a t ih =>
    intro hnd hfind
    by_cases ha : (a.id == tid) = true
    · rw [List.find?_cons_of_pos (p := fun x : StockItem => x.id == tid) _ ha] at hfind
      injection hfind with h1
      subst h1
      have hanot : a.id ∉ t.map (fun x => x.id) :=
        (List.nodup_cons.mp (by simpa using hnd)).1
      have hmap : t.map (fun x => if x.id == tid then si1 else x) = t := by
        have hfix : ∀ x ∈ t, (if x.id == tid then si1 else x) = x := by
          intro x hx
          apply if_neg
          intro hxx
          exact hanot (List.mem_map.mpr ⟨x, hx,
            by rw [beq_iff_eq.mp hxx, beq_iff_eq.mp ha]⟩)
        rw [List.map_congr_left hfix]
        simp
      simp only [List.map_cons, List.sum_cons, if_pos ha, hmap]
      omega
    · rw [List.find?_cons_of_neg (p := fun x : StockItem => x.id == tid) _ ha] at hfind
      have hndt : (t.map (fun x => x.id)).Nodup :=
        (List.nodup_cons.mp (by simpa using hnd)).2
      have ih' := ih hndt hfind
      simp only [List.map_cons, List.sum_cons, if_neg ha]
      omega

/-- A hit in the prefix of an appended list is the hit of the whole
list. -/
theorem find?_append_some (l1 l2 : List StockItem) (p : StockItem → Bool) (x : StockItem)
    (h : l1.find? p = some x) : (l1 ++ l2).find? p = some x := by
  rw [List.find?_append, h]
  rfl

/-- What a successful completion loop guarantees: the build and BOM are
untouched, stock ids are preserved, all processed records are deleted,
the total stock sum drops by the total consumed quantity, untouched
stock items keep their lookup result, and (with unique stock ids and
unique record targets, the store's constraints) each processed record's
stock item is decremented by exactly its allocated quantity. -/
theorem consumeAllocations_ok : ∀ (items : List BuildItem) (s : State) (user : Nat) (s1 : State),
    consumeAllocations user s items = .ok s1 →
    s1.build = s.build
    ∧ s1.bomItems = s.bomItems
    ∧ s1.stockItems.map (fun x => x.id) = s.stockItems.map (fun x => x.id)
    ∧ (items = [] → s1 = s)
    ∧ (items ≠ [] → s1.buildItems = [])
    ∧ ((s.stockItems.map (fun x => x.id)).Nodup →
        (s1.stockItems.map (fun x => x.quantity)).sum + (items.map (fun x => x.quantity)).sum
          = (s.stockItems.map (fun x => x.quantity)).sum)
    ∧ (∀ id, (∀ bi ∈ items, bi.stock_item ≠ id) → findStock s1 id = findStock s id)
    ∧ ((s.stockItems.map (fun x => x.id)).Nodup →
        (items.map (fun x => x.stock_item)).Nodup →
        ∀ bi ∈ items, ∀ si, findStock s bi.stock_item = some si →
          bi.quantity ≤ si.quantity
          ∧ findStock s1 bi.stock_item = some { si with quantity := si.quantity - bi.quantity }) := by
  intro items
  induction items with
  | nil =>
    intro s user s1 h
    simp only [consumeAllocations] at h
    injection h with h1
    subst h1
    refine ⟨rfl, rfl, rfl, fun _ => rfl, fun hne => absurd rfl hne, fun _ => by simp,
      fun id _ => rfl, fun _ _ bi hbi => absurd hbi (List.not_mem_nil bi)⟩
  | cons b rest ih =>
    intro s user s1 h
    unfold consumeAllocations at h
    cases hf : findStock s b.stock_item with
    | none =>
      exfalso
      simp only [hf] at h
      exact Except.noConfusion h
    | some si =>
      simp only [hf] at h
      have hf' : s.stockItems.find? (fun x => x.id == b.stock_item) = some si := hf
      have hsid : si.id = b.stock_item := by
        have := List.find?_some hf'
        simpa using this
      by_cases hlt : si.quantity < b.quantity
      · exfalso
        have herr : ∀ note, si.take_stock b.quantity user note = .error .insufficientStock := by
          intro note
          unfold StockItem.take_stock
          rw [if_pos hlt]
        simp only [herr] at h
        exact Except.noConfusion h
      · have hsucc : ∀ note, si.take_stock b.quantity user note
            = .ok { si with quantity := si.quantity - b.quantity } := by
          intro note
          unfold StockItem.take_stock
          rw [if_neg hlt]
        simp only [hsucc] at h
        obtain ⟨ih1, ih2, ih3, ih4, ih5, ih6, ih7, ih8⟩ := ih _ user s1 h
        have hids : (s.stockItems.map (fun x =>
            if x.id == b.stock_item then { si with quantity := si.quantity - b.quantity }
            else x)).map (fun x => x.id) = s.stockItems.map (fun x => x.id) :=
          map_update_ids s.stockItems b.stock_item _ hsid
        refine ⟨ih1, ih2, ?_, ?_, ?_, ?_, ?_, ?_⟩
        · exact ih3.trans hids
        · intro hx
          exact absurd hx (List.cons_ne_nil b rest)
        · intro _
          by_cases hr : rest = []
          · have h4 := ih4 hr
            rw [h4]
            exact hr
          · exact ih5 hr
        · intro hnd
          have hndmid : ((s.stockItems.map (fun x =>
              if x.id == b.stock_item then { si with quantity := si.quantity - b.quantity }
              else x)).map (fun x => x.id)).Nodup := by
            rw [hids]
            exact hnd
          have h6 : (s1.stockItems.map (fun x => x.quantity)).sum
              + (rest.map (fun x => x.quantity)).sum
              = ((s.stockItems.map (fun x =>
                  if x.id == b.stock_item then { si with quantity := si.quantity - b.quantity }
                  else x)).map (fun x => x.quantity)).sum := ih6 hndmid
          have hsum : ((s.stockItems.map (fun x =>
              if x.id == b.stock_item then { si with quantity := si.quantity - b.quantity }
              else x)).map (fun x => x.quantity)).sum + si.quantity
              = (s.stockItems.map (fun x => x.quantity)).sum + (si.quantity - b.quantity) :=
            sum_map_update b.stock_item si
              { si with quantity := si.quantity - b.quantity } s.stockItems hnd hf'
          simp only [List.map_cons, List.sum_cons]
          show (s1.stockItems.map (fun x => x.quantity)).sum
              + (b.quantity + (rest.map (fun x => x.quantity)).sum)
              = (s.stockItems.map (fun x => x.quantity)).sum
          omega
        · intro id hid
          have h7 := ih7 id (fun bi hbi => hid bi (List.mem_cons_of_mem b hbi))
          have hstep : (s.stockItems.map (fun x =>
              if x.id == b.stock_item then { si with quantity := si.quantity - b.quantity }
              else x)).find? (fun x => x.id == id)
              = s.stockItems.find? (fun x => x.id == id) := by
            rw [find?_id_update s.stockItems b.stock_item si
                { si with quantity := si.quantity - b.quantity } hf' rfl id,
              if_neg (fun hx => hid b (List.mem_cons_self b rest) hx.symm)]
          exact h7.trans hstep
        · intro hnd hnbi bi hbi si0 hfsi0
          have hnbi2 : (b.stock_item :: rest.map (fun x => x.stock_item)).Nodup := by
            rw [List.map_cons] at hnbi
            exact hnbi
          have hnbi' := List.nodup_cons.mp hnbi2
          have hndmid : ((s.stockItems.map (fun x =>
              if x.id == b.stock_item then { si with quantity := si.quantity - b.quantity }
              else x)).map (fun x => x.id)).Nodup := by
            rw [hids]
            exact hnd
          rcases List.mem_cons.mp hbi with rfl | hbir
          · rw [hf] at hfsi0
            injection hfsi0 with he
            subst he
            refine ⟨by omega, ?_⟩
            have hnone : ∀ bi2 ∈ rest, bi2.stock_item ≠ bi.stock_item := by
              intro bi2 hbi2 heq
              exact hnbi'.1 (List.mem_map.mpr ⟨bi2, hbi2, heq⟩)
            have h7 := ih7 bi.stock_item hnone
            have hstep : (s.stockItems.map (fun x =>
                if x.id == bi.stock_item then { si with quantity := si.quantity - bi.quantity }
                else x)).find? (fun x => x.id == bi.stock_item)
                = some { si with quantity := si.quantity - bi.quantity } := by
              rw [find?_id_update s.stockItems bi.stock_item si
                  { si with quantity := si.quantity - bi.quantity } hf' rfl bi.stock_item,
                if_pos rfl]
            exact h7.trans hstep
          · have hneq : bi.stock_item ≠ b.stock_item := by
              intro heq
              exact hnbi'.1 (List.mem_map.mpr ⟨bi, hbir, heq⟩)
            have hfsmid : (s.stockItems.map (fun x =>
                if x.id == b.stock_item then { si with quantity := si.quantity - b.quantity }
                else x)).find? (fun x => x.id == bi.stock_item) = some si0 := by
              rw [find?_id_update s.stockItems b.stock_item si
                  { si with quantity := si.quantity - b.quantity } hf' rfl bi.stock_item,
                if_neg hneq]
              exact hfsi0
            exact ih8 hndmid hnbi'.2 bi hbir si0 hfsmid

/-- C2: a successful completion of a PENDING build consumes from each
allocated stock item exactly its allocated quantity (so the total stock
drops by the total allocated quantity while the one new output item adds
the build quantity), creates exactly one new stock item carrying the
target part and the build quantity, deletes every allocation record, and
ends with status COMPLETE.  The two Nodup hypotheses are the store's
primary-key and (build, stock item) uniqueness constraints. -/
theorem completeBuild_success_spec (s : State) (location user now : Nat) (s1 : State)
    (hpend : s.build.status = PENDING)
    (hnd : (s.stockItems.map (fun x => x.id)).Nodup)
    (hnbi : (s.buildItems.map (fun x => x.stock_item)).Nodup)
    (hok : completeBuild s location user now = .ok s1) :
    (∀ bi ∈ s.buildItems, ∀ si, findStock s bi.stock_item = some si →
        bi.quantity ≤ si.quantity
        ∧ findStock s1 bi.stock_item = some { si with quantity := si.quantity - bi.quantity })
    ∧ (s1.stockItems.map (fun x => x.quantity)).sum
        + (s.buildItems.map (fun x => x.quantity)).sum
        = (s.stockItems.map (fun x => x.quantity)).sum + s.build.quantity
    ∧ s1.stockItems.length = s.stockItems.length + 1
    ∧ (∃ ni, s1.stockItems.getLast? = some ni ∧ ni.part = s.build.part
        ∧ ni.quantity = s.build.quantity)
    ∧ s1.buildItems = []
    ∧ s1.build.status = COMPLETE := by
  unfold completeBuild at hok
  cases hc : consumeAllocations user s s.buildItems with
  | error e =>
    rw [hc] at hok
    exact Except.noConfusion hok
  | ok sc =>
    simp only [hc] at hok
    injection hok with h1
    subst h1
    obtain ⟨c1, c2, c3, c4, c5, c6, c7, c8⟩ := consumeAllocations_ok s.buildItems s user sc hc
    have hlen : sc.stockItems.length = s.stockItems.length := by
      have := congrArg List.length c3
      simpa using this
    refine ⟨?_, ?_, ?_, ?_, ?_, rfl⟩
    · intro bi hbi si hfsi
      obtain ⟨hle, hfind⟩ := c8 hnd hnbi bi hbi si hfsi
      refine ⟨hle, ?_⟩
      show (sc.stockItems ++ [builtStockItem s sc location now]).find?
          (fun x => x.id == bi.stock_item)
        = some { si with quantity := si.quantity - bi.quantity }
      exact find?_append_some _ _ _ _ hfind
    · have h6 := c6 hnd
      have hsplit : ((sc.stockItems ++ [builtStockItem s sc location now]).map
            (fun x => x.quantity)).sum
          = (sc.stockItems.map (fun x => x.quantity)).sum + s.build.quantity := by
        rw [List.map_append, List.sum_append]
        simp [builtStockItem]
      show ((sc.stockItems ++ [builtStockItem s sc location now]).map
            (fun x => x.quantity)).sum
          + (s.buildItems.map (fun x => x.quantity)).sum
          = (s.stockItems.map (fun x => x.quantity)).sum + s.build.quantity
      omega
    · show (sc.stockItems ++ [builtStockItem s sc location now]).length
        = s.stockItems.length + 1
      rw [List.length_append, hlen]
      rfl
    · refine ⟨builtStockItem s sc location now, ?_, rfl, rfl⟩
      show (sc.stockItems ++ [builtStockItem s sc location now]).getLast?
        = some (builtStockItem s sc location now)
      exact List.getLast?_concat _
    · show sc.buildItems = []
      by_cases hbi0 : s.buildItems = []
      · rw [c4 hbi0]
        exact hbi0
      · exact c5 hbi0

/-- Witness for C2 on the concrete fixture: 4 of 6 units consumed from
stock item 3, one 5-unit output item of part 1 appended. -/
theorem completeBuild_success_spec_witness :
    (∀ bi ∈ stateDone.buildItems, ∀ si, findStock stateDone bi.stock_item = some si →
        bi.quantity ≤ si.quantity
        ∧ findStock stateDoneAfter bi.stock_item
            = some { si with quantity := si.quantity - bi.quantity })
    ∧ (stateDoneAfter.stockItems.map (fun x => x.quantity)).sum
        + (stateDone.buildItems.map (fun x => x.quantity)).sum
        = (stateDone.stockItems.map (fun x => x.quantity)).sum + stateDone.build.quantity
    ∧ stateDoneAfter.stockItems.length = stateDone.stockItems.length + 1
    ∧ (∃ ni, stateDoneAfter.stockItems.getLast? = some ni ∧ ni.part = stateDone.build.part
        ∧ ni.quantity = stateDone.build.quantity)
    ∧ stateDoneAfter.buildItems = []
    ∧ stateDoneAfter.build.status = COMPLETE :=
  completeBuild_success_spec stateDone 0 9 7 stateDoneAfter rfl (by decide) (by decide) (by rfl)

/-- A (possibly failed) `autoAllocate` step never touches the build
order's own fields. -/
theorem stepOp_autoAlloc_build (s : State) : (stepOp .autoAlloc s).build = s.build := by
  show (txState (autoAllocate s) s).build = s.build
  cases h : autoAllocate s with
  | ok s1 => exact (applyAllocations_ok s (getAutoAllocations s) s1 h).1
  | error e => rfl

/-- A successful `completeBuild` sets the completion date, the acting
user and the `COMPLETE` status on the resulting build. -/
theorem completeBuild_ok_build (s : State) (location user now : Nat) (s1 : State)
    (h : completeBuild s location user now = .ok s1) :
    s1.build.completion_date = some now ∧ s1.build.completed_by = some user
      ∧ s1.build.status = COMPLETE := by
  unfold completeBuild at h
  cases hc : consumeAllocations user s s.buildItems with
  | error e =>
    rw [hc] at h
    cases h
  | ok sc =>
    simp only [hc] at h
    injection h with h1
    rw [← h1]
    exact ⟨rfl, rfl, rfl⟩

/-- Whenever one core operation changes a completion field, it sets both
fields and the resulting status is terminal. -/
theorem stepOp_fields_change (op : Op) (t : State) :
    ((stepOp op t).build.completion_date ≠ t.build.completion_date
      ∨ (stepOp op t).build.completed_by ≠ t.build.completed_by) →
    ((stepOp op t).build.completion_date).isSome = true
      ∧ ((stepOp op t).build.completed_by).isSome = true
      ∧ ((stepOp op t).build.status = CANCELLED ∨ (stepOp op t).build.status = COMPLETE) := by
  intro hch
  cases op with
  | cancel u n => exact ⟨rfl, rfl, Or.inl rfl⟩
  | complete l u n =>
    cases hc : completeBuild t l u n with
    | error e =>
      exfalso
      have hid : stepOp (.complete l u n) t = t := by
        show txState (completeBuild t l u n) t = t
        rw [hc]
        rfl
      rcases hch with h | h <;> rw [hid] at h <;> exact h rfl
    | ok s1 =>
      have hs := completeBuild_ok_build t l u n s1 hc
      have hstep : stepOp (.complete l u n) t = s1 := by
        show txState (completeBuild t l u n) t = s1
        rw [hc]
        rfl
      rw [hstep]
      exact ⟨by rw [hs.1]; rfl, by rw [hs.2.1]; rfl, Or.inr hs.2.2⟩
  | autoAlloc =>
    exfalso
    have hb := stepOp_autoAlloc_build t
    rcases hch with h | h <;> rw [hb] at h <;> exact h rfl
  | unalloc =>
    exfalso
    rcases hch with h | h <;> exact h rfl

/-- Once the build is terminal, no guard-respecting sequence of core
operations touches the build order's fields at all. -/
theorem runOps_preserves_terminal : ∀ (ops : List Op) (s : State),
    (s.build.status = CANCELLED ∨ s.build.status = COMPLETE) →
    guardedOps s ops = true →
    (runOps ops s).build = s.build := by
  intro ops
  induction ops with
  | nil =>
    intro s _ _
    rfl
  | cons op rest ih =>
    intro s hterm hg
    unfold guardedOps at hg
    rw [Bool.and_eq_true] at hg
    obtain ⟨hg1, hg2⟩ := hg
    cases op with
    | cancel u n =>
      exfalso
      unfold opGuard at hg1
      rcases hterm with h | h <;> rw [h] at hg1 <;>
        simp [CANCELLED, COMPLETE, PENDING] at hg1
    | complete l u n =>
      exfalso
      unfold opGuard at hg1
      rcases hterm with h | h <;> rw [h] at hg1 <;>
        simp [CANCELLED, COMPLETE, PENDING] at hg1
    | autoAlloc =>
      have hb := stepOp_autoAlloc_build s
      unfold runOps
      rw [ih (stepOp .autoAlloc s) (by rw [hb]; exact hterm) hg2, hb]
    | unalloc =>
      unfold runOps
      rw [ih (stepOp .unalloc s) hterm hg2]
      rfl

/-- Counterexample for C9 as stated: on a build whose completion fields
are already set (status CANCELLED, completed by user 1 on date 5), a
further `cancelBuild` call by user 2 — an operation of this core, which
does not itself guard against non-PENDING builds — overwrites the
completed-by field. -/
theorem cancelBuild_overwrites_completion_fields :
    stateTerm.build.completed_by = some 1
    ∧ stateTerm.build.completion_date = some 5
    ∧ stateTerm.build.status = CANCELLED
    ∧ (cancelBuild stateTerm 2 6).build.completed_by = some 2
    ∧ (cancelBuild stateTerm 2 6).build.completed_by ≠ stateTerm.build.completed_by :=
  ⟨rfl, rfl, rfl, rfl, by decide⟩

/-- C9 (amended): provided cancel and complete are invoked only on
PENDING builds — the state-machine guard this core leaves to its callers
— the completion fields are changed only by an operation that sets both
and leaves the status terminal, and once the build is terminal no
guard-respecting sequence of core operations alters them. -/
theorem completion_fields_spec (s : State) (ops : List Op)
    (hterm : s.build.status = CANCELLED ∨ s.build.status = COMPLETE)
    (hg : guardedOps s ops = true) :
    ((runOps ops s).build.completion_date = s.build.completion_date
      ∧ (runOps ops s).build.completed_by = s.build.completed_by
      ∧ (runOps ops s).build.status = s.build.status)
    ∧ (∀ (op : Op) (t : State),
        ((stepOp op t).build.completion_date ≠ t.build.completion_date
          ∨ (stepOp op t).build.completed_by ≠ t.build.completed_by) →
        ((stepOp op t).build.completion_date).isSome = true
          ∧ ((stepOp op t).build.completed_by).isSome = true
          ∧ ((stepOp op t).build.status = CANCELLED
              ∨ (stepOp op t).build.status = COMPLETE)) := by
  constructor
  · have hb := runOps_preserves_terminal ops s hterm hg
    exact ⟨by rw [hb], by rw [hb], by rw [hb]⟩
  · exact fun op t hch => stepOp_fields_change op t hch

/-- Witness for the amended C9 on a cancelled fixture and one further
(guard-respecting) operation. -/
theorem completion_fields_spec_witness :
    (runOps [Op.autoAlloc] stateTerm).build.completion_date = stateTerm.build.completion_date
    ∧ (runOps [Op.autoAlloc] stateTerm).build.completed_by = stateTerm.build.completed_by
    ∧ (runOps [Op.autoAlloc] stateTerm).build.status = stateTerm.build.status :=
  (completion_fields_spec stateTerm [Op.autoAlloc] (Or.inl rfl) (by rfl)).1

end InvenTree
